import Mathlib

/-!
# CustomPeriodicSender: the periodic send scheduler and its offset store

A shallow embedding of `src/model/custom-periodic-sender.cc`.

Conventions of the embedding.

* `Time` is an exact rational number of seconds; the resolution and range of `ns3::Time`
  are not part of the embedding.
* `std::stod` returns a binary64 number: the exact value of the literal rounded to the
  nearest with ties to even, and `std::out_of_range` where `strtod` of the GNU C library
  reports `ERANGE` (overflow, or a subnormal result that is not exact).  A binary64
  number is held as the rational it denotes.
* The offset store is the set of files `offset/<id>.txt`; the directory is taken to exist
  and to be writable, so that opening a file for writing always succeeds.
* The discrete-event clock (`ns3::Simulator`), the C++ library function `std::stod` and
  the random variable stream are not code of this repository; they are modelled from their
  documented contracts and from sections 5 and 6 of the specification.
-/

namespace Lorawan

/-- Simulated instants and durations, in seconds. -/
abbrev Time := ℚ

/-! ## Text utilities of the C++ library -/

/-- The predicate `isspace` of the C locale: space, `\t`, `\n`, `\v`, `\f`, `\r`. -/
def isSpace (c : Char) : Bool :=
  c.toNat == 32 || (decide (9 ≤ c.toNat) && decide (c.toNat ≤ 13))

/-- Value of a decimal digit character. -/
def decVal (c : Char) : Option Nat :=
  if 48 ≤ c.toNat ∧ c.toNat ≤ 57 then some (c.toNat - 48) else none

/-- Value of a hexadecimal digit character. -/
def hexVal (c : Char) : Option Nat :=
  if 48 ≤ c.toNat ∧ c.toNat ≤ 57 then some (c.toNat - 48)
  else if 97 ≤ c.toNat ∧ c.toNat ≤ 102 then some (c.toNat - 87)
  else if 65 ≤ c.toNat ∧ c.toNat ≤ 70 then some (c.toNat - 55)
  else none

/-- ASCII lower-casing, used for the case-insensitive words `inf`, `infinity`, `nan`. -/
def lowerNat (c : Char) : Nat :=
  if 65 ≤ c.toNat ∧ c.toNat ≤ 90 then c.toNat + 32 else c.toNat

/-- Reads the longest run of digits in the given base: the accumulated value, the
number of digits read, and the unread rest. -/
def scanDigits (base : Nat) (val : Char → Option Nat) :
    List Char → Nat → Nat → Nat × Nat × List Char
  | [], acc, n => (acc, n, [])
  | c :: cs, acc, n =>
    match val c with
    | some d => scanDigits base val cs (acc * base + d) (n + 1)
    | none => (acc, n, c :: cs)

/-- Reads an optional sign: `true` for a minus sign. -/
def scanSign : List Char → Bool × List Char
  | c :: cs => if c.toNat = 45 then (true, cs) else if c.toNat = 43 then (false, cs)
               else (false, c :: cs)
  | [] => (false, [])

/-- Strips a given lower-case word (as character codes) from the front, ignoring case. -/
def stripWord : List Nat → List Char → Option (List Char)
  | [], cs => some cs
  | _ :: _, [] => none
  | w :: ws, c :: cs => if lowerNat c = w then stripWord ws cs else none

/-- The number that a floating literal denotes before it is turned into a value:
`mantissa * radix ^ exponent`, negated when `negative`; or one of the special words. -/
inductive Literal where
  | number (negative : Bool) (mantissa : Nat) (radix : Nat) (exponent : Int)
  | infinity (negative : Bool)
  | nan
  deriving DecidableEq, Repr

/-- Reads the digits of a mantissa with an optional radix point: the mantissa as an
integer, the number of integer digits, the number of fraction digits, and the rest. -/
def scanMantissa (base : Nat) (val : Char → Option Nat) (cs : List Char) :
    Nat × Nat × Nat × List Char :=
  match scanDigits base val cs 0 0 with
  | (i, ni, r1) =>
    match r1 with
    | c :: r1t =>
      if c.toNat = 46 then
        match scanDigits base val r1t i 0 with
        | (m, nf, r2) => (m, ni, nf, r2)
      else (i, ni, 0, r1)
    | [] => (i, ni, 0, r1)

/-- Reads an optional exponent part introduced by the letter with lower-case code
`letter`: the signed exponent and the rest; without a complete exponent part nothing
is consumed. -/
def scanExponent (letter : Nat) (cs : List Char) : Int × List Char :=
  match cs with
  | c :: r =>
    if lowerNat c = letter then
      match scanSign r with
      | (neg, r1) =>
        match scanDigits 10 decVal r1 0 0 with
        | (e, ne, r2) =>
          if ne = 0 then (0, cs) else ((if neg then -(e : Int) else (e : Int)), r2)
    else (0, cs)
  | [] => (0, cs)

/-- The decimal floating form: a nonempty digit sequence with an optional point, then an
optional decimal exponent. -/
def scanDecimal (neg : Bool) (cs : List Char) : Option (Literal × List Char) :=
  match scanMantissa 10 decVal cs with
  | (m, ni, nf, r) =>
    if ni + nf = 0 then none
    else
      match scanExponent 101 r with
      | (e, r2) => some (Literal.number neg m 10 (e - (nf : Int)), r2)

/-- The hexadecimal floating form, after the `0x` prefix: a nonempty hexadecimal digit
sequence with an optional point, then an optional binary exponent. -/
def scanHex (neg : Bool) (cs : List Char) : Option (Literal × List Char) :=
  match scanMantissa 16 hexVal cs with
  | (m, ni, nf, r) =>
    if ni + nf = 0 then none
    else
      match scanExponent 112 r with
      | (e, r2) => some (Literal.number neg m 2 (e - 4 * (nf : Int)), r2)

/-- The characters allowed between the parentheses of `nan(...)`. -/
def isNChar (c : Char) : Bool :=
  (decVal c).isSome || c.toNat == 95 ||
    (decide (97 ≤ lowerNat c) && decide (lowerNat c ≤ 122))

/-- The optional `(n-char-sequence)` after `nan`. -/
def scanNanPayload (cs : List Char) : List Char :=
  match cs with
  | c :: r =>
    if c.toNat = 40 then
      match r.dropWhile isNChar with
      | d :: r2 => if d.toNat = 41 then r2 else cs
      | [] => cs
    else cs
  | [] => cs

/-- The subject sequence of `strtod` after white space and sign. -/
def scanUnsigned (neg : Bool) (cs : List Char) : Option (Literal × List Char) :=
  let hex : Option (Literal × List Char) :=
    match cs with
    | z :: x :: r => if z.toNat = 48 ∧ lowerNat x = 120 then scanHex neg r else none
    | _ => none
  match hex with
  | some res => some res
  | none =>
    match scanDecimal neg cs with
    | some res => some res
    | none =>
      match stripWord [105, 110, 102] cs with
      | some r =>
        match stripWord [105, 110, 105, 116, 121] r with
        | some r2 => some (Literal.infinity neg, r2)
        | none => some (Literal.infinity neg, r)
      | none =>
        match stripWord [110, 97, 110] cs with
        | some r => some (Literal.nan, scanNanPayload r)
        | none => none

/-- The parsing done by the function `strtod` of the C library: skips leading white space,
reads an optional sign and the longest initial part that is a floating literal, and
returns the literal together with the unread rest; `none` when no conversion can be
performed. -/
def strtod (cs : List Char) : Option (Literal × List Char) :=
  match scanSign (cs.dropWhile isSpace) with
  | (neg, r) => scanUnsigned neg r

/-- What `std::stod` hands back: one of its two exceptions, a finite binary64 number
(held as the rational it denotes), or an infinity or a NaN. -/
inductive StodResult where
  | invalid_argument
  | out_of_range
  | finite (v : Time)
  | nonfinite
  deriving DecidableEq

/-- The rational `mantissa * radix ^ exponent`, negated when `neg`. -/
def Literal.value (neg : Bool) (m radix : Nat) (e : Int) : Time :=
  let a : Time := if 0 ≤ e then (m : Time) * (radix : Time) ^ e.toNat
                  else (m : Time) / (radix : Time) ^ (-e).toNat
  if neg then -a else a

/-- The magnitude `mantissa * radix ^ exponent` as a fraction of natural numbers. -/
def Literal.fraction (m radix : Nat) (e : Int) : Nat × Nat :=
  if 0 ≤ e then (m * radix ^ e.toNat, 1) else (m, radix ^ (-e).toNat)

/-- The integer nearest to `num / den`, the even one of the two when it lies half way. -/
def roundHalfEven (num den : Nat) : Nat :=
  if 2 * (num % den) < den then num / den
  else if den < 2 * (num % den) then num / den + 1
  else if (num / den) % 2 = 0 then num / den else num / den + 1

/-- The fraction `(num / den) / 2 ^ p`. -/
def scaleBy (num den : Nat) (p : Int) : Nat × Nat :=
  if 0 ≤ p then (num, den * 2 ^ p.toNat) else (num * 2 ^ (-p).toNat, den)

/-- The number of binary digits of `n`, by halving at most `fuel` times. -/
def bitLength : Nat → Nat → Nat
  | 0, _ => 0
  | fuel + 1, n => if n = 0 then 0 else bitLength fuel (n / 2) + 1

/-- The integer part of the binary logarithm of a positive number. -/
def log2 (n : Nat) : Nat := bitLength n n - 1

/-- The binary exponent `E` of a positive fraction: `2 ^ E ≤ num / den < 2 ^ (E + 1)`. -/
def binaryExponent (num den : Nat) : Int :=
  if (scaleBy num den ((log2 num : Int) - (log2 den : Int))).2
      ≤ (scaleBy num den ((log2 num : Int) - (log2 den : Int))).1
  then (log2 num : Int) - (log2 den : Int)
  else (log2 num : Int) - (log2 den : Int) - 1

/-- The magnitude `num / den` converted to binary64 as `strtod` does in the default
rounding mode: the pair `(n, p)` stands for the number `n * 2 ^ p`, and `none` for
`ERANGE`.  A magnitude of binary exponent `E` is rounded to 53 significant bits, to the
nearest with ties to even; it overflows when that reaches `2 ^ 1024`, and it is a normal
number when that is at least `2 ^ (-1022)`.  Otherwise the result is subnormal, the
nearest multiple of `2 ^ (-1074)`, and `ERANGE` is reported unless that multiple is the
magnitude itself: the GNU C library on x86-64 detects tininess after rounding and makes
only an inexact tiny result an error.  (Release 2.36 of that library misses the error
for some magnitudes that have exactly 54 significant bits; here they are errors.) -/
def toBinary64 (num den : Nat) : Option (Nat × Int) :=
  if num = 0 then some (0, 0)
  else
    let E := binaryExponent num den
    let n := roundHalfEven (scaleBy num den (E - 52)).1 (scaleBy num den (E - 52)).2
    if 1023 < E ∨ (E = 1023 ∧ n = 2 ^ 53) then none
    else if -1022 ≤ E ∨ (E = -1023 ∧ n = 2 ^ 53) then some (n, E - 52)
    else
      let n1 := roundHalfEven (scaleBy num den (-1074)).1 (scaleBy num den (-1074)).2
      if n1 * (scaleBy num den (-1074)).2 = (scaleBy num den (-1074)).1 then
        some (n1, -1074)
      else none

/-- The result of `std::stod` on a literal: `std::out_of_range` when `strtod` reports
`ERANGE`, else the binary64 number nearest to the value of the literal. -/
def Literal.toResult : Literal → StodResult
  | Literal.number neg m radix e =>
    match toBinary64 (Literal.fraction m radix e).1 (Literal.fraction m radix e).2 with
    | some (n, p) => StodResult.finite (Literal.value neg n 2 p)
    | none => StodResult.out_of_range
  | Literal.infinity _ => StodResult.nonfinite
  | Literal.nan => StodResult.nonfinite

/-- The function `std::stod (buf)`: the binary64 value of the longest initial part of
`buf` that is a floating literal; characters after it are ignored; `std::invalid_argument`
is thrown when there is no such part, and `std::out_of_range` when the value is out of
the range of binary64. -/
def stod (buf : String) : StodResult :=
  match strtod buf.data with
  | some (lit, _) => lit.toResult
  | none => StodResult.invalid_argument

/-- The whole text is a number: `strtod` converts it and leaves nothing unread. -/
def isWholeNumber (buf : String) : Prop :=
  ∃ neg m radix e, strtod buf.data = some (Literal.number neg m radix e, [])

/-! ## Offset store -/

/-- The offset store: for every node identifier the content of the file
`offset/<id>.txt`, or `none` when there is no such file. -/
abbrev OffsetStore := Nat → Option String

/-- `CustomPeriodicSender::InitOffset`: opens the file of `node_id` for writing (which
truncates it) and writes the character `0` followed by `std::endl`. -/
def InitOffset (store : OffsetStore) (node_id : Nat) : OffsetStore :=
  Function.update store node_id (some "0\n")

/-- The extraction `ifs >> res` into a `std::string`: leading white space is skipped and
characters are taken up to the next white space or the end of the file. -/
def extractWord (cs : List Char) : List Char :=
  (cs.dropWhile isSpace).takeWhile (fun c => !isSpace c)

/-- `CustomPeriodicSender::ReadOffset`: the first word of the file of `node_id`; when the
file cannot be opened the extraction fails silently and `res` stays empty. -/
def ReadOffset (store : OffsetStore) (node_id : Nat) : String :=
  match store node_id with
  | none => ""
  | some content => String.mk (extractWord content.data)

/-! ## Packet size -/

/-- A random variable stream: the value of every successive draw, and the number of
draws made so far. -/
structure RandomVariableStream where
  values : Nat → Nat
  position : Nat

/-- `RandomVariableStream::GetInteger`, which returns a `uint32_t`. -/
def RandomVariableStream.GetInteger (rv : RandomVariableStream) :
    Nat × RandomVariableStream :=
  (rv.values rv.position % 2 ^ 32, { rv with position := rv.position + 1 })

/-- Conversion to the 32-bit `int` (two's complement). -/
def toInt32 (i : Int) : Int :=
  if i % 2 ^ 32 < 2 ^ 31 then i % 2 ^ 32 else i % 2 ^ 32 - 2 ^ 32

/-- Conversion of an `int` to `uint32_t`, the type of the size of a `Packet`. -/
def toUInt32 (i : Int) : Nat := (i % 2 ^ 32).toNat

/-- The size of the packet created by `SendPacket`: `m_basePktSize + randomsize`, where
`int randomsize` holds the draw, computed in `int` (overflow wraps) and passed to the
`uint32_t` parameter of the packet constructor; `m_basePktSize` without a stream. -/
def packetSize (m_basePktSize : Nat) (draw : Option Nat) : Nat :=
  match draw with
  | some r =>
    let randomsize : Int := toInt32 (r : Int)
    toUInt32 (toInt32 ((m_basePktSize : Int) + randomsize))
  | none => m_basePktSize

/-! ## Discrete-event clock -/

/-- A scheduled invocation of `SendPacket`: its unique identifier and its time stamp. -/
structure Event where
  uid : Nat
  ts : Time
  deriving DecidableEq

/-- An `EventId`; `none` is the default-constructed identifier that names no event. -/
abbrev EventId := Option Nat

/-- Modelled from the spec: the discrete-event clock (`ns3::Simulator`), which is not code
of this repository.  It holds the current virtual time, the next unused event identifier
and the live (scheduled, neither fired nor cancelled) events in insertion order. -/
structure Simulator where
  now : Time
  nextUid : Nat
  events : List Event

/-- Modelled from the spec: `Schedule (delay, callback) -> EventHandle`.  The event is
stamped `now + delay`; no check is made on the sign of `delay`. -/
def Simulator.Schedule (sim : Simulator) (delay : Time) : Simulator × EventId :=
  ({ sim with nextUid := sim.nextUid + 1,
              events := sim.events ++ [⟨sim.nextUid, sim.now + delay⟩] },
   some sim.nextUid)

/-- Modelled from the spec: `Cancel (EventHandle)`; synchronous, and without effect on a
handle that names no live event. -/
def Simulator.Cancel (sim : Simulator) (id : EventId) : Simulator :=
  match id with
  | none => sim
  | some u => { sim with events := sim.events.filter (fun e => e.uid != u) }

/-- Modelled from the spec: the event the clock fires next, the one with the least time
stamp and, among equal time stamps, the one scheduled first. -/
def earliest : List Event → Option Event
  | [] => none
  | e :: es =>
    match earliest es with
    | none => some e
    | some f => if f.ts < e.ts then some f else some e

/-! ## The application -/

/-- The member variables of `CustomPeriodicSender`; `m_mac` is `none` for a null
pointer. -/
structure CustomPeriodicSender where
  m_interval : Time
  m_initialDelay : Time
  m_basePktSize : Nat
  m_pktSizeRV : Option RandomVariableStream
  m_sendEvent : EventId
  m_mac : Option Nat

/-- The node that owns the application: its identifier and the MAC layer of its device
number 0 (`none` when `GetMac` yields a null pointer). -/
structure Node where
  id : Nat
  mac : Option Nat

/-- The application together with everything it acts upon: its node, the clock, the
offset store, the packets handed so far to `m_mac->Send`, each with the time of the
call and its size, and the number of calls of `InitOffset` made so far by `SendPacket`. -/
structure World where
  app : CustomPeriodicSender
  node : Node
  sim : Simulator
  store : OffsetStore
  sent : List (Time × Nat)
  initOffsetCalls : Nat

/-- Why a call did not return. -/
inductive Abort where
  | assertion
  | invalid_argument
  | out_of_range
  deriving DecidableEq

/-- How a call ends: it returns; or the process is terminated (a failed `NS_ASSERT`, an
uncaught exception), the world being the one at that point; or the program has no defined
behaviour from that point on (a call through a null `m_mac`, a duration made of a
non-finite `double`). -/
inductive Outcome where
  | returned (w : World)
  | aborted (why : Abort) (w : World)
  | undefined (w : World)

/-- The constructor `CustomPeriodicSender::CustomPeriodicSender`. -/
def CustomPeriodicSender.new : CustomPeriodicSender :=
  { m_interval := 10, m_initialDelay := 1, m_basePktSize := 10, m_pktSizeRV := none,
    m_sendEvent := none, m_mac := none }

/-- The initial value that `GetTypeId` registers for the attribute `Interval`. -/
def IntervalAttributeInitialValue : Time := 0

/-- `CustomPeriodicSender::SetInterval`. -/
def CustomPeriodicSender.SetInterval (a : CustomPeriodicSender) (interval : Time) :
    CustomPeriodicSender :=
  { a with m_interval := interval }

/-- `CustomPeriodicSender::GetInterval`. -/
def CustomPeriodicSender.GetInterval (a : CustomPeriodicSender) : Time := a.m_interval

/-- `CustomPeriodicSender::SetInitialDelay`. -/
def CustomPeriodicSender.SetInitialDelay (a : CustomPeriodicSender) (delay : Time) :
    CustomPeriodicSender :=
  { a with m_initialDelay := delay }

/-- `CustomPeriodicSender::SetPacketSizeRandomVariable`; `none` is a null pointer. -/
def CustomPeriodicSender.SetPacketSizeRandomVariable (a : CustomPeriodicSender)
    (rv : Option RandomVariableStream) : CustomPeriodicSender :=
  { a with m_pktSizeRV := rv }

/-- `CustomPeriodicSender::SetPacketSize`; the parameter is a `uint8_t`. -/
def CustomPeriodicSender.SetPacketSize (a : CustomPeriodicSender) (size : Nat) :
    CustomPeriodicSender :=
  { a with m_basePktSize := size % 256 }

/-- The first part of `SendPacket`: the packet is created, with a fresh draw when a
stream is configured, and handed to `m_mac->Send`. -/
def createAndSend (w : World) : World :=
  match w.app.m_pktSizeRV with
  | some rv =>
    { w with app := { w.app with m_pktSizeRV := some rv.GetInteger.2 },
             sent := w.sent ++ [(w.sim.now, packetSize w.app.m_basePktSize
                                   (some rv.GetInteger.1))] }
  | none => { w with sent := w.sent ++ [(w.sim.now, packetSize w.app.m_basePktSize none)] }

/-- The middle part of `SendPacket`: `if (buf != "0") this->InitOffset (node_id);`. -/
def resetOffset (w : World) (buf : String) : World :=
  if buf ≠ "0" then
    { w with store := InitOffset w.store w.node.id, initOffsetCalls := w.initOffsetCalls + 1 }
  else w

/-- `CustomPeriodicSender::SendPacket`. -/
def SendPacket (w : World) : Outcome :=
  match w.app.m_mac with
  | none => Outcome.undefined w
  | some _ =>
    let w1 := createAndSend w
    let buf := ReadOffset w1.store w1.node.id
    let w2 := resetOffset w1 buf
    match stod buf with
    | StodResult.invalid_argument => Outcome.aborted Abort.invalid_argument w2
    | StodResult.out_of_range => Outcome.aborted Abort.out_of_range w2
    | StodResult.nonfinite => Outcome.undefined w2
    | StodResult.finite offset =>
      Outcome.returned
        { w2 with
          sim := (w2.sim.Schedule (offset + w2.app.m_interval)).1
          app := { w2.app with
                   m_sendEvent := (w2.sim.Schedule (offset + w2.app.m_interval)).2 } }

/-- The first part of `StartApplication`: the value of `m_mac` after
`if (m_mac == 0) m_mac = loraNetDevice->GetMac ();`. -/
def resolveMac (w : World) : Option Nat :=
  match w.app.m_mac with
  | some m => some m
  | none => w.node.mac

/-- `CustomPeriodicSender::StartApplication`; `NS_ASSERT (m_mac != 0)` terminates the
process when no MAC layer is found. -/
def StartApplication (w : World) : Outcome :=
  match resolveMac w with
  | none => Outcome.aborted Abort.assertion w
  | some m =>
    let sim1 := w.sim.Cancel w.app.m_sendEvent
    Outcome.returned
      { w with
        sim := (sim1.Schedule w.app.m_initialDelay).1
        app := { w.app with m_mac := some m,
                            m_sendEvent := (sim1.Schedule w.app.m_initialDelay).2 } }

/-- `CustomPeriodicSender::StopApplication`. -/
def StopApplication (w : World) : World :=
  { w with sim := w.sim.Cancel w.app.m_sendEvent }

/-- Modelled from the spec: the clock fires its next event, if there is one: the event
leaves the queue, virtual time becomes its time stamp, and its callback `SendPacket`
runs. -/
def fire (w : World) : Outcome :=
  match earliest w.sim.events with
  | none => Outcome.returned w
  | some e =>
    SendPacket { w with sim := { w.sim with now := e.ts,
                                            events := w.sim.events.filter
                                              (fun x => x.uid != e.uid) } }

/-- Modelled from the spec: the clock runs until no event is due before `stopTime`, firing
at most `fuel` events; `none` when the fuel does not suffice. -/
def Run (stopTime : Time) : Nat → World → Option Outcome
  | 0, _ => none
  | fuel + 1, w =>
    match earliest w.sim.events with
    | none => some (Outcome.returned w)
    | some e =>
      if e.ts < stopTime then
        match fire w with
        | Outcome.returned w1 => Run stopTime fuel w1
        | o => some o
      else some (Outcome.returned w)

/-- What can happen to a scheduler from outside: the calls of its public interface, the
clock firing the next event, and a write to the offset store by other code. -/
inductive Action where
  | Start
  | Stop
  | SetInterval (interval : Time)
  | SetInitialDelay (delay : Time)
  | SetPacketSize (size : Nat)
  | SetPacketSizeRandomVariable (rv : Option RandomVariableStream)
  | Fire
  | WriteStore (node_id : Nat) (content : Option String)

/-- The effect of one action. -/
def step (w : World) : Action → Outcome
  | Action.Start => StartApplication w
  | Action.Stop => Outcome.returned (StopApplication w)
  | Action.SetInterval t => Outcome.returned { w with app := w.app.SetInterval t }
  | Action.SetInitialDelay t => Outcome.returned { w with app := w.app.SetInitialDelay t }
  | Action.SetPacketSize n => Outcome.returned { w with app := w.app.SetPacketSize n }
  | Action.SetPacketSizeRandomVariable rv =>
    Outcome.returned { w with app := w.app.SetPacketSizeRandomVariable rv }
  | Action.Fire => fire w
  | Action.WriteStore i c => Outcome.returned { w with store := Function.update w.store i c }

/-- The effect of a sequence of actions; it ends with the first action that does not
return. -/
def exec (w : World) : List Action → Outcome
  | [] => Outcome.returned w
  | a :: as =>
    match step w a with
    | Outcome.returned w1 => exec w1 as
    | o => o

/-- A world in which the scheduler has just been constructed: nothing is scheduled and
nothing has been sent. -/
def World.create (node : Node) (now : Time) (nextUid : Nat) (store : OffsetStore) : World :=
  { app := CustomPeriodicSender.new, node := node, sim := ⟨now, nextUid, []⟩,
    store := store, sent := [], initOffsetCalls := 0 }

/-- The worlds that some sequence of actions reaches from a newly constructed
scheduler. -/
def Reachable (w : World) : Prop :=
  ∃ node now nextUid store acts,
    exec (World.create node now nextUid store) acts = Outcome.returned w

/-- The actions `n` times `Fire`. -/
def fires (n : Nat) : List Action := List.replicate n Action.Fire

/-- The size of the packet that the next call of `SendPacket` creates. -/
def nextPacketSize (a : CustomPeriodicSender) : Nat :=
  packetSize a.m_basePktSize (a.m_pktSizeRV.map (fun rv => rv.GetInteger.1))

/-- The world in which a call ended. -/
def Outcome.world : Outcome → World
  | Outcome.returned w => w
  | Outcome.aborted _ w => w
  | Outcome.undefined w => w

/-! ## Basic facts -/

theorem extractWord_init : String.mk (extractWord "0\n".data) = "0" := by decide

theorem strtod_zero : strtod "0".data = some (Literal.number false 0 10 0, []) := by decide

theorem strtod_empty : strtod "".data = none := by decide

theorem toResult_zero :
    (Literal.number false 0 10 0).toResult = StodResult.finite 0 := by
  have h : toBinary64 (Literal.fraction 0 10 0).1 (Literal.fraction 0 10 0).2
      = some (0, 0) := by decide
  simp only [Literal.toResult, h]
  simp [Literal.value]

theorem toResult_three :
    (Literal.number false 3 10 0).toResult = StodResult.finite 3 := by
  have h : toBinary64 (Literal.fraction 3 10 0).1 (Literal.fraction 3 10 0).2
      = some (6755399441055744, -51) := by decide
  simp only [Literal.toResult, h]
  simp [Literal.value]
  norm_num

theorem stod_zero : stod "0" = StodResult.finite 0 := by
  unfold stod
  rw [strtod_zero]
  exact toResult_zero

theorem stod_empty : stod "" = StodResult.invalid_argument := by
  unfold stod
  rw [strtod_empty]

theorem ReadOffset_InitOffset (store : OffsetStore) (node_id : Nat) :
    ReadOffset (InitOffset store node_id) node_id = "0" := by
  unfold ReadOffset InitOffset
  rw [Function.update_same]
  exact extractWord_init

theorem ReadOffset_InitOffset_other (store : OffsetStore) (node_id j : Nat)
    (h : j ≠ node_id) : ReadOffset (InitOffset store node_id) j = ReadOffset store j := by
  simp [ReadOffset, InitOffset, Function.update_noteq h]

theorem toInt32_emod (i : Int) : toInt32 i % 2 ^ 32 = i % 2 ^ 32 := by
  unfold toInt32
  split <;> omega

theorem packetSize_some (base r : Nat) :
    packetSize base (some r) = (base + r) % 2 ^ 32 := by
  simp only [packetSize, toUInt32]
  rw [toInt32_emod, Int.add_emod, toInt32_emod, ← Int.add_emod]
  omega

theorem createAndSend_sent (w : World) :
    (createAndSend w).sent = w.sent ++ [(w.sim.now, nextPacketSize w.app)] := by
  unfold createAndSend nextPacketSize
  cases h : w.app.m_pktSizeRV <;> simp

theorem createAndSend_store (w : World) : (createAndSend w).store = w.store := by
  unfold createAndSend
  cases h : w.app.m_pktSizeRV <;> simp

theorem createAndSend_node (w : World) : (createAndSend w).node = w.node := by
  unfold createAndSend
  cases h : w.app.m_pktSizeRV <;> simp

theorem createAndSend_sim (w : World) : (createAndSend w).sim = w.sim := by
  unfold createAndSend
  cases h : w.app.m_pktSizeRV <;> simp

theorem createAndSend_initOffsetCalls (w : World) :
    (createAndSend w).initOffsetCalls = w.initOffsetCalls := by
  unfold createAndSend
  cases h : w.app.m_pktSizeRV <;> simp

theorem createAndSend_interval (w : World) :
    (createAndSend w).app.m_interval = w.app.m_interval := by
  unfold createAndSend
  cases h : w.app.m_pktSizeRV <;> simp

theorem createAndSend_app (w : World) :
    (createAndSend w).app.m_mac = w.app.m_mac ∧
    (createAndSend w).app.m_initialDelay = w.app.m_initialDelay ∧
    (createAndSend w).app.m_basePktSize = w.app.m_basePktSize ∧
    (createAndSend w).app.m_sendEvent = w.app.m_sendEvent ∧
    (w.app.m_pktSizeRV = none → (createAndSend w).app.m_pktSizeRV = none) := by
  unfold createAndSend
  cases h : w.app.m_pktSizeRV <;> simp [h]

/-- The world in which `SendPacket` stops reading and resetting the offset. -/
def afterReset (w : World) : World :=
  resetOffset (createAndSend w) (ReadOffset w.store w.node.id)

theorem afterReset_facts (w : World) :
    (afterReset w).sim = w.sim ∧ (afterReset w).node = w.node ∧
    (afterReset w).sent = w.sent ++ [(w.sim.now, nextPacketSize w.app)] ∧
    (afterReset w).app.m_interval = w.app.m_interval ∧
    (afterReset w).app.m_mac = w.app.m_mac ∧
    (afterReset w).app.m_initialDelay = w.app.m_initialDelay ∧
    (afterReset w).app.m_basePktSize = w.app.m_basePktSize ∧
    (afterReset w).app.m_sendEvent = w.app.m_sendEvent ∧
    (w.app.m_pktSizeRV = none → (afterReset w).app.m_pktSizeRV = none) := by
  obtain ⟨h1, h2, h3, h4, h5⟩ := createAndSend_app w
  unfold afterReset resetOffset
  split <;>
    simp [createAndSend_sim, createAndSend_node, createAndSend_sent, createAndSend_interval,
      h1, h2, h3, h4] <;> exact h5

theorem afterReset_store_ne (w : World) (h : ReadOffset w.store w.node.id ≠ "0") :
    (afterReset w).store = InitOffset w.store w.node.id ∧
    (afterReset w).initOffsetCalls = w.initOffsetCalls + 1 := by
  unfold afterReset resetOffset
  simp [h, createAndSend_store, createAndSend_node, createAndSend_initOffsetCalls]

theorem afterReset_store_eq (w : World) (h : ReadOffset w.store w.node.id = "0") :
    (afterReset w).store = w.store ∧ (afterReset w).initOffsetCalls = w.initOffsetCalls := by
  unfold afterReset resetOffset
  simp [h, createAndSend_store, createAndSend_initOffsetCalls]

theorem SendPacket_eq (w : World) (mac : Nat) (hmac : w.app.m_mac = some mac) :
    SendPacket w =
      match stod (ReadOffset w.store w.node.id) with
      | StodResult.invalid_argument => Outcome.aborted Abort.invalid_argument (afterReset w)
      | StodResult.out_of_range => Outcome.aborted Abort.out_of_range (afterReset w)
      | StodResult.nonfinite => Outcome.undefined (afterReset w)
      | StodResult.finite offset =>
        Outcome.returned
          { afterReset w with
            sim := ((afterReset w).sim.Schedule (offset + (afterReset w).app.m_interval)).1
            app := { (afterReset w).app with
                     m_sendEvent :=
                       ((afterReset w).sim.Schedule
                         (offset + (afterReset w).app.m_interval)).2 } } := by
  unfold SendPacket afterReset
  simp only [hmac, createAndSend_store, createAndSend_node]

/-- A cycle whose offset text converts to `d` returns, having scheduled the next cycle
`d + m_interval` after the present time. -/
theorem SendPacket_finite (w : World) (mac : Nat) (hmac : w.app.m_mac = some mac) (d : Time)
    (hd : stod (ReadOffset w.store w.node.id) = StodResult.finite d) :
    ∃ w1, SendPacket w = Outcome.returned w1 ∧
      w1.sim = ⟨w.sim.now, w.sim.nextUid + 1,
                w.sim.events ++ [⟨w.sim.nextUid, w.sim.now + (d + w.app.m_interval)⟩]⟩ ∧
      w1.app.m_sendEvent = some w.sim.nextUid ∧
      w1.store = (afterReset w).store ∧
      w1.initOffsetCalls = (afterReset w).initOffsetCalls ∧
      w1.node = w.node ∧
      w1.sent = w.sent ++ [(w.sim.now, nextPacketSize w.app)] ∧
      w1.app.m_interval = w.app.m_interval ∧
      w1.app.m_mac = w.app.m_mac ∧
      w1.app.m_initialDelay = w.app.m_initialDelay ∧
      w1.app.m_basePktSize = w.app.m_basePktSize ∧
      (w.app.m_pktSizeRV = none → w1.app.m_pktSizeRV = none) := by
  obtain ⟨h1, h2, h3, h4, h5, h6, h7, _, h9⟩ := afterReset_facts w
  rw [SendPacket_eq w mac hmac, hd]
  refine ⟨_, rfl, ?_, ?_, rfl, rfl, h2, h3, h4, h5, h6, h7, h9⟩
  · simp [Simulator.Schedule, h1, h4]
  · simp [Simulator.Schedule, h1]

/-- A cycle whose offset text is out of the range of binary64 is terminated by the
uncaught `std::out_of_range`, with nothing scheduled. -/
theorem SendPacket_out_of_range (w : World) (mac : Nat) (hmac : w.app.m_mac = some mac)
    (h : stod (ReadOffset w.store w.node.id) = StodResult.out_of_range) :
    SendPacket w = Outcome.aborted Abort.out_of_range (afterReset w) ∧
    (afterReset w).sim = w.sim := by
  rw [SendPacket_eq w mac hmac, h]
  exact ⟨rfl, (afterReset_facts w).1⟩

theorem SendPacket_world_sent (w : World) (mac : Nat) (hmac : w.app.m_mac = some mac) :
    (SendPacket w).world.sent = w.sent ++ [(w.sim.now, nextPacketSize w.app)] := by
  obtain ⟨_, _, h3, _⟩ := afterReset_facts w
  rw [SendPacket_eq w mac hmac]
  cases stod (ReadOffset w.store w.node.id) <;> simp [Outcome.world, h3]

/-! ## Concrete worlds -/

/-- A started scheduler on node 7 at time 1 s, with the constructor's configuration, the
given content of its offset file and the given stream, and nothing scheduled. -/
def exampleWorld (content : Option String) (rv : Option RandomVariableStream) : World :=
  { app := { CustomPeriodicSender.new with m_mac := some 0, m_pktSizeRV := rv },
    node := ⟨7, some 0⟩,
    sim := ⟨1, 0, []⟩,
    store := fun i => if i = 7 then content else none,
    sent := [],
    initOffsetCalls := 0 }

/-- A stream whose every draw is the largest `uint32_t`. -/
def maxStream : RandomVariableStream := ⟨fun _ => 4294967295, 0⟩

/-- A stream whose every draw is 5. -/
def fiveStream : RandomVariableStream := ⟨fun _ => 5, 0⟩

theorem strtod_3abc :
    strtod "3abc".data = some (Literal.number false 3 10 0, "abc".data) := by decide

theorem stod_3abc : stod "3abc" = StodResult.finite 3 := by
  unfold stod
  rw [strtod_3abc]
  exact toResult_three

theorem strtod_1e999 :
    strtod "1e999".data = some (Literal.number false 1 10 999, []) := by decide

theorem toResult_1e999 :
    (Literal.number false 1 10 999).toResult = StodResult.out_of_range := by
  decide!

/-- The text `1e999` is above the range of binary64. -/
theorem stod_1e999 : stod "1e999" = StodResult.out_of_range := by
  unfold stod
  rw [strtod_1e999]
  exact toResult_1e999

theorem strtod_1em310 :
    strtod "1e-310".data = some (Literal.number false 1 10 (-310), []) := by decide

theorem toResult_1em310 :
    (Literal.number false 1 10 (-310)).toResult = StodResult.out_of_range := by
  decide!

/-- The text `1e-310` denotes a subnormal number that binary64 does not hold exactly. -/
theorem stod_1em310 : stod "1e-310" = StodResult.out_of_range := by
  unfold stod
  rw [strtod_1em310]
  exact toResult_1em310

theorem strtod_18e308 :
    strtod "1.8e308".data = some (Literal.number false 18 10 307, []) := by decide

theorem toResult_18e308 :
    (Literal.number false 18 10 307).toResult = StodResult.out_of_range := by
  decide!

/-- The text `1.8e308` is above the largest binary64 number. -/
theorem stod_18e308 : stod "1.8e308" = StodResult.out_of_range := by
  unfold stod
  rw [strtod_18e308]
  exact toResult_18e308

theorem strtod_tenth :
    strtod "0.1".data = some (Literal.number false 1 10 (-1), []) := by decide

theorem toBinary64_tenth :
    toBinary64 (Literal.fraction 1 10 (-1)).1 (Literal.fraction 1 10 (-1)).2
      = some (7205759403792794, -56) := by decide

/-- The text `0.1` is rounded to the nearest binary64 number, which is not one tenth. -/
theorem stod_tenth :
    stod "0.1" = StodResult.finite (3602879701896397 / 36028797018963968) := by
  unfold stod
  rw [strtod_tenth]
  simp only [Literal.toResult, toBinary64_tenth]
  simp [Literal.value]
  norm_num

theorem stod_abc : stod "abc" = StodResult.invalid_argument := by
  unfold stod
  rw [show strtod "abc".data = none by decide]

theorem ReadOffset_exampleWorld_3abc :
    ReadOffset (exampleWorld (some "3abc") none).store
      (exampleWorld (some "3abc") none).node.id = "3abc" := by decide

theorem ReadOffset_exampleWorld_abc :
    ReadOffset (exampleWorld (some "abc") none).store
      (exampleWorld (some "abc") none).node.id = "abc" := by decide

/-- Storing the registered initial value of the attribute `Interval` through its accessor
`SetInterval` replaces the constructor's 10 s by 0 s. -/
theorem SetInterval_attribute_initial_value :
    (CustomPeriodicSender.new.SetInterval IntervalAttributeInitialValue).GetInterval = 0 :=
  rfl

/-- A cycle that reads the text `1e999` is terminated by `std::out_of_range`. -/
theorem SendPacket_1e999 :
    SendPacket (exampleWorld (some "1e999") none)
      = Outcome.aborted Abort.out_of_range
          (afterReset (exampleWorld (some "1e999") none)) := by
  have hread : ReadOffset (exampleWorld (some "1e999") none).store
      (exampleWorld (some "1e999") none).node.id = "1e999" := by decide
  exact (SendPacket_out_of_range _ 0 rfl (by rw [hread]; exact stod_1e999)).1

/-! ## The claims about one send cycle and about the offset store -/

/-- C5, as stated, fails: with the base size 10 and a stream that returns 4294967295 the
packet handed to the MAC layer has size 9, not 10 + 4294967295. -/
theorem C5_counterexample :
    (exampleWorld (some "0") (some maxStream)).app.m_basePktSize = 10 ∧
    maxStream.GetInteger.1 = 4294967295 ∧
    (SendPacket (exampleWorld (some "0") (some maxStream))).world.sent = [(1, 9)] ∧
    (9 : Nat) ≠ 10 + 4294967295 := by
  refine ⟨rfl, by decide, ?_, by decide⟩
  rw [SendPacket_world_sent _ 0 rfl]
  simp [exampleWorld, nextPacketSize, packetSize_some, maxStream,
    RandomVariableStream.GetInteger, CustomPeriodicSender.new]

/-- C5, amended: for a base size below 256, in every send cycle of a bound scheduler the
packet handed to the MAC layer has size `(m_basePktSize + k) mod 2 ^ 32` when the
configured stream returns `k`, which is `m_basePktSize + k` itself when that sum is below
`2 ^ 32` (there is no reduction modulo 256); and without a stream it has size
`m_basePktSize`, the size with a stream that returns 0. -/
theorem C5_packet_size (w : World) (mac : Nat) (hmac : w.app.m_mac = some mac)
    (hbase : w.app.m_basePktSize < 256) :
    (∀ rv k, w.app.m_pktSizeRV = some rv → rv.GetInteger.1 = k →
      (SendPacket w).world.sent
          = w.sent ++ [(w.sim.now, (w.app.m_basePktSize + k) % 2 ^ 32)] ∧
      (w.app.m_basePktSize + k < 2 ^ 32 →
        (SendPacket w).world.sent = w.sent ++ [(w.sim.now, w.app.m_basePktSize + k)])) ∧
    (w.app.m_pktSizeRV = none →
      (SendPacket w).world.sent = w.sent ++ [(w.sim.now, w.app.m_basePktSize)]) ∧
    packetSize w.app.m_basePktSize (some 0) = packetSize w.app.m_basePktSize none := by
  refine ⟨?_, ?_, ?_⟩
  · intro rv k hrv hk
    have h : (SendPacket w).world.sent
        = w.sent ++ [(w.sim.now, (w.app.m_basePktSize + k) % 2 ^ 32)] := by
      rw [SendPacket_world_sent w mac hmac]
      simp [nextPacketSize, hrv, hk, packetSize_some]
    refine ⟨h, fun hlt => ?_⟩
    rw [h, Nat.mod_eq_of_lt hlt]
  · intro hrv
    rw [SendPacket_world_sent w mac hmac]
    simp [nextPacketSize, hrv, packetSize]
  · rw [packetSize_some]
    simp only [packetSize, Nat.add_zero]
    exact Nat.mod_eq_of_lt (by omega)

/-- C5, witness: with the base size 10 and a stream that returns 5, the packet has size
15. -/
theorem C5_packet_size_witness :
    (SendPacket (exampleWorld (some "0") (some fiveStream))).world.sent
      = [] ++ [(1, 10 + 5)] :=
  ((C5_packet_size (exampleWorld (some "0") (some fiveStream)) 0 rfl (by decide)).1
    fiveStream 5 rfl (by decide)).2 (by decide)

/-- C6: a newly constructed scheduler has the interval 10 s, the initial delay 1 s, the
base packet size 10 and no stream, and `GetInterval` returns 10 s on it. -/
theorem C6_constructor_defaults :
    CustomPeriodicSender.new.m_interval = 10 ∧
    CustomPeriodicSender.new.m_initialDelay = 1 ∧
    CustomPeriodicSender.new.m_basePktSize = 10 ∧
    CustomPeriodicSender.new.m_pktSizeRV.isNone = true ∧
    CustomPeriodicSender.new.GetInterval = 10 :=
  ⟨rfl, rfl, rfl, rfl, rfl⟩

/-- C7: whatever the store held, after `InitOffset (id)` the call `ReadOffset (id)`
returns "0", the records of all other identifiers (and what is read from them) are
unchanged, and a second `InitOffset (id)` changes nothing. -/
theorem C7_InitOffset_then_ReadOffset (store : OffsetStore) (node_id : Nat) :
    ReadOffset (InitOffset store node_id) node_id = "0" ∧
    (∀ j, j ≠ node_id → InitOffset store node_id j = store j ∧
      ReadOffset (InitOffset store node_id) j = ReadOffset store j) ∧
    InitOffset (InitOffset store node_id) node_id = InitOffset store node_id := by
  refine ⟨ReadOffset_InitOffset store node_id, fun j hj => ⟨?_, ?_⟩, ?_⟩
  · simp [InitOffset, Function.update_noteq hj]
  · exact ReadOffset_InitOffset_other store node_id j hj
  · simp [InitOffset]

/-- C8, as stated, fails: a cycle at 1 s that reads the text "3abc" returns and schedules
the next cycle at 1 + 3 + 10 s, although the whole text is not a number. -/
theorem C8_counterexample :
    ReadOffset (exampleWorld (some "3abc") none).store
      (exampleWorld (some "3abc") none).node.id = "3abc" ∧
    ¬ isWholeNumber "3abc" ∧
    ∃ w1, SendPacket (exampleWorld (some "3abc") none) = Outcome.returned w1 ∧
      w1.sim.events = [⟨0, 14⟩] := by
  refine ⟨ReadOffset_exampleWorld_3abc, ?_, ?_⟩
  · rintro ⟨neg, m, radix, e, h⟩
    rw [strtod_3abc] at h
    simp at h
  · obtain ⟨w1, h0, h1, _⟩ := SendPacket_finite (exampleWorld (some "3abc") none) 0 rfl 3
      (by rw [ReadOffset_exampleWorld_3abc]; exact stod_3abc)
    refine ⟨w1, h0, ?_⟩
    rw [h1]
    simp [exampleWorld, CustomPeriodicSender.new]
    norm_num

/-- C8, amended: when `std::stod` can convert no initial part of the text read from the
offset store, the cycle of a bound scheduler is terminated by the uncaught
`std::invalid_argument`: no default is substituted, no event is scheduled and
`m_sendEvent` is left as it was; and a cycle that returns has scheduled exactly one new
event, `d + m_interval` from now, where `d` is the finite number to which `std::stod`
converted an initial part of the text. -/
theorem C8_unparseable_offset_is_fatal (w : World) (mac : Nat)
    (hmac : w.app.m_mac = some mac) :
    (stod (ReadOffset w.store w.node.id) = StodResult.invalid_argument ↔
      strtod (ReadOffset w.store w.node.id).data = none) ∧
    (stod (ReadOffset w.store w.node.id) = StodResult.invalid_argument →
      SendPacket w = Outcome.aborted Abort.invalid_argument (afterReset w) ∧
      (afterReset w).sim = w.sim ∧
      (afterReset w).app.m_sendEvent = w.app.m_sendEvent) ∧
    (∀ w1, SendPacket w = Outcome.returned w1 →
      ∃ d, stod (ReadOffset w.store w.node.id) = StodResult.finite d ∧
        w1.sim.events
          = w.sim.events ++ [⟨w.sim.nextUid, w.sim.now + (d + w.app.m_interval)⟩]) := by
  obtain ⟨h1, _, _, _, _, _, _, h8, _⟩ := afterReset_facts w
  refine ⟨?_, ?_, ?_⟩
  · unfold stod
    cases h : strtod (ReadOffset w.store w.node.id).data with
    | none => simp
    | some p =>
      obtain ⟨lit, rest⟩ := p
      cases lit with
      | number neg m radix e =>
        simp only [Literal.toResult]
        split <;> simp
      | infinity neg => simp [Literal.toResult]
      | nan => simp [Literal.toResult]
  · intro h
    rw [SendPacket_eq w mac hmac, h]
    exact ⟨rfl, h1, h8⟩
  · intro w1 hw1
    cases hs : stod (ReadOffset w.store w.node.id) with
    | invalid_argument => rw [SendPacket_eq w mac hmac, hs] at hw1; cases hw1
    | out_of_range => rw [SendPacket_eq w mac hmac, hs] at hw1; cases hw1
    | nonfinite => rw [SendPacket_eq w mac hmac, hs] at hw1; cases hw1
    | finite d =>
      obtain ⟨w2, h0, h2, _⟩ := SendPacket_finite w mac hmac d hs
      rw [h0] at hw1
      cases hw1
      exact ⟨d, rfl, by rw [h2]⟩

/-- C8, witness: a cycle that reads the text "abc" is terminated by
`std::invalid_argument`. -/
theorem C8_unparseable_offset_is_fatal_witness :
    SendPacket (exampleWorld (some "abc") none)
      = Outcome.aborted Abort.invalid_argument (afterReset (exampleWorld (some "abc") none)) :=
  ((C8_unparseable_offset_is_fatal (exampleWorld (some "abc") none) 0 rfl).2.1
    (by rw [ReadOffset_exampleWorld_abc]; exact stod_abc)).1

/-- C10: `ReadOffset` returns the empty text for an identifier without a record; and a
send cycle of a bound scheduler whose node has no record hands its packet to the MAC
layer, creates the record (content `0` and a line end, read back as "0") by one call of
`InitOffset`, and is then terminated by the `std::invalid_argument` of the conversion of
the empty text, with nothing scheduled. -/
theorem C10_missing_record (w : World) (mac : Nat) (hmac : w.app.m_mac = some mac)
    (hnone : w.store w.node.id = none) :
    (∀ store node_id, store node_id = none → ReadOffset store node_id = "") ∧
    ∃ w1, SendPacket w = Outcome.aborted Abort.invalid_argument w1 ∧
      w1.sent = w.sent ++ [(w.sim.now, nextPacketSize w.app)] ∧
      w1.store w.node.id = some "0\n" ∧
      ReadOffset w1.store w.node.id = "0" ∧
      w1.initOffsetCalls = w.initOffsetCalls + 1 ∧
      w1.sim = w.sim := by
  have hread : ∀ (store : OffsetStore) (node_id : Nat), store node_id = none →
      ReadOffset store node_id = "" := by
    intro store node_id h
    simp [ReadOffset, h]
  have hbuf := hread w.store w.node.id hnone
  have hne : ReadOffset w.store w.node.id ≠ "0" := by rw [hbuf]; decide
  obtain ⟨h1, _, h3, _⟩ := afterReset_facts w
  obtain ⟨h5, h6⟩ := afterReset_store_ne w hne
  refine ⟨hread, afterReset w, ?_, h3, ?_, ?_, h6, h1⟩
  · rw [SendPacket_eq w mac hmac, hbuf, stod_empty]
  · rw [h5]
    simp [InitOffset]
  · rw [h5]
    exact ReadOffset_InitOffset _ _

/-- C10, witness: node 7 without an offset file. -/
theorem C10_missing_record_witness :
    (∀ store node_id, store node_id = none → ReadOffset store node_id = "") ∧
    ∃ w1, SendPacket (exampleWorld none none) = Outcome.aborted Abort.invalid_argument w1 ∧
      w1.sent = [] ++ [(1, 10)] ∧
      w1.store 7 = some "0\n" ∧
      ReadOffset w1.store 7 = "0" ∧
      w1.initOffsetCalls = 0 + 1 ∧
      w1.sim = ⟨1, 0, []⟩ :=
  C10_missing_record (exampleWorld none none) 0 rfl rfl

/-! ## The single pending event -/

/-- The actions that only store a configuration value or write the offset store. -/
def Action.isConfig : Action → Bool
  | Action.SetInterval _ => true
  | Action.SetInitialDelay _ => true
  | Action.SetPacketSize _ => true
  | Action.SetPacketSizeRandomVariable _ => true
  | Action.WriteStore _ _ => true
  | _ => false

/-- The invariant of the scheduler: nothing is pending, or exactly one event is, and then
`m_sendEvent` names it and `m_mac` is bound. -/
def Inv (w : World) : Prop :=
  w.sim.events = [] ∨
    ∃ e, w.sim.events = [e] ∧ w.app.m_sendEvent = some e.uid ∧ w.app.m_mac ≠ none

/-- Every live event and every future event has an identifier of at least `k`. -/
def UidsFrom (k : Nat) (w : World) : Prop :=
  k ≤ w.sim.nextUid ∧ ∀ e ∈ w.sim.events, k ≤ e.uid

theorem earliest_single (e : Event) : earliest [e] = some e := by
  simp [earliest]

theorem earliest_mem : ∀ (es : List Event) (e : Event), earliest es = some e → e ∈ es
  | [], e, h => by simp [earliest] at h
  | x :: xs, e, h => by
    unfold earliest at h
    cases hx : earliest xs with
    | none =>
      rw [hx] at h
      simp at h
      simp [h]
    | some f =>
      rw [hx] at h
      have := earliest_mem xs f hx
      simp only at h
      split at h
      · cases h
        exact List.mem_cons_of_mem _ this
      · cases h
        exact List.mem_cons_self _ _

theorem Cancel_of_Inv (w : World) (h : Inv w) :
    (w.sim.Cancel w.app.m_sendEvent).events = [] ∧
    (w.sim.Cancel w.app.m_sendEvent).now = w.sim.now ∧
    (w.sim.Cancel w.app.m_sendEvent).nextUid = w.sim.nextUid := by
  unfold Simulator.Cancel
  rcases h with h | ⟨e, he, hid, _⟩
  · cases w.app.m_sendEvent <;> simp [h]
  · rw [hid]
    simp [he]

theorem Cancel_nextUid (sim : Simulator) (id : EventId) :
    (sim.Cancel id).nextUid = sim.nextUid ∧ (sim.Cancel id).now = sim.now ∧
    ∀ e ∈ (sim.Cancel id).events, e ∈ sim.events := by
  unfold Simulator.Cancel
  cases id with
  | none => simp
  | some u =>
    refine ⟨rfl, rfl, fun e he => ?_⟩
    exact (List.mem_filter.mp he).1

theorem Cancel_nil (sim : Simulator) (id : EventId) (h : sim.events = []) :
    sim.Cancel id = sim := by
  unfold Simulator.Cancel
  cases id with
  | none => rfl
  | some u =>
    cases sim
    simp_all

theorem StopApplication_of_nil (w : World) (h : w.sim.events = []) :
    StopApplication w = w := by
  unfold StopApplication
  rw [Cancel_nil _ _ h]

theorem fire_of_nil (w : World) (h : w.sim.events = []) : fire w = Outcome.returned w := by
  unfold fire
  rw [h]
  rfl

theorem fire_of_single (w : World) (e : Event) (h : w.sim.events = [e]) :
    fire w = SendPacket { w with sim := { w.sim with now := e.ts, events := [] } } := by
  unfold fire
  rw [h, earliest_single]
  simp

/-- What is known of the world in which a call of `SendPacket` returned. -/
theorem SendPacket_returned (w w1 : World) (h : SendPacket w = Outcome.returned w1) :
    ∃ d, stod (ReadOffset w.store w.node.id) = StodResult.finite d ∧
      w1.sim = ⟨w.sim.now, w.sim.nextUid + 1,
                w.sim.events ++ [⟨w.sim.nextUid, w.sim.now + (d + w.app.m_interval)⟩]⟩ ∧
      w1.app.m_sendEvent = some w.sim.nextUid ∧
      w1.app.m_mac = w.app.m_mac ∧ w.app.m_mac ≠ none := by
  cases hm : w.app.m_mac with
  | none =>
    unfold SendPacket at h
    rw [hm] at h
    cases h
  | some mac =>
    cases hs : stod (ReadOffset w.store w.node.id) with
    | invalid_argument => rw [SendPacket_eq w mac hm, hs] at h; cases h
    | out_of_range => rw [SendPacket_eq w mac hm, hs] at h; cases h
    | nonfinite => rw [SendPacket_eq w mac hm, hs] at h; cases h
    | finite d =>
      obtain ⟨w2, h0, h1, h2, _, _, _, _, _, h8, _⟩ := SendPacket_finite w mac hm d hs
      rw [h0] at h
      cases h
      exact ⟨d, rfl, h1, h2, by rw [h8, hm], by simp⟩

theorem StartApplication_returned (w w1 : World)
    (h : StartApplication w = Outcome.returned w1) :
    ∃ m, resolveMac w = some m ∧
      w1 = { w with
             sim := ((w.sim.Cancel w.app.m_sendEvent).Schedule w.app.m_initialDelay).1
             app := { w.app with
                      m_mac := some m,
                      m_sendEvent := ((w.sim.Cancel w.app.m_sendEvent).Schedule
                                        w.app.m_initialDelay).2 } } := by
  unfold StartApplication at h
  cases hm : resolveMac w with
  | none => rw [hm] at h; cases h
  | some m =>
    rw [hm] at h
    simp only [Outcome.returned.injEq] at h
    exact ⟨m, rfl, h.symm⟩

theorem StartApplication_of_Inv (w w1 : World) (hi : Inv w)
    (h : StartApplication w = Outcome.returned w1) :
    w1.sim = ⟨w.sim.now, w.sim.nextUid + 1,
              [⟨w.sim.nextUid, w.sim.now + w.app.m_initialDelay⟩]⟩ ∧
    w1.app.m_sendEvent = some w.sim.nextUid ∧ w1.app.m_mac ≠ none ∧
    w1.app.m_interval = w.app.m_interval ∧ w1.app.m_basePktSize = w.app.m_basePktSize ∧
    w1.app.m_pktSizeRV = w.app.m_pktSizeRV ∧ w1.store = w.store ∧ w1.node = w.node ∧
    w1.sent = w.sent ∧ w1.initOffsetCalls = w.initOffsetCalls := by
  obtain ⟨m, _, rfl⟩ := StartApplication_returned w w1 h
  obtain ⟨h1, h2, h3⟩ := Cancel_of_Inv w hi
  simp [Simulator.Schedule, h1, h2, h3]

theorem step_config (w : World) (a : Action) (ha : a.isConfig = true) :
    ∃ w1, step w a = Outcome.returned w1 ∧ w1.sim = w.sim ∧
      w1.app.m_sendEvent = w.app.m_sendEvent ∧ w1.app.m_mac = w.app.m_mac ∧
      w1.node = w.node ∧ w1.sent = w.sent ∧ w1.initOffsetCalls = w.initOffsetCalls := by
  cases a <;> simp [Action.isConfig] at ha <;>
    exact ⟨_, rfl, rfl, rfl, rfl, rfl, rfl, rfl⟩

theorem exec_config : ∀ (acts : List Action) (w : World),
    (∀ a ∈ acts, a.isConfig = true) →
    ∃ w1, exec w acts = Outcome.returned w1 ∧ w1.sim = w.sim ∧
      w1.app.m_sendEvent = w.app.m_sendEvent ∧ w1.app.m_mac = w.app.m_mac ∧
      w1.node = w.node ∧ w1.sent = w.sent ∧ w1.initOffsetCalls = w.initOffsetCalls
  | [], w, _ => ⟨w, rfl, rfl, rfl, rfl, rfl, rfl, rfl⟩
  | a :: as, w, h => by
    obtain ⟨w1, h0, h1, h2, h3, h4, h5, h6⟩ :=
      step_config w a (h a (List.mem_cons_self _ _))
    obtain ⟨w2, g0, g1, g2, g3, g4, g5, g6⟩ :=
      exec_config as w1 (fun b hb => h b (List.mem_cons_of_mem _ hb))
    refine ⟨w2, ?_, g1.trans h1, g2.trans h2, g3.trans h3, g4.trans h4, g5.trans h5,
      g6.trans h6⟩
    simp [exec, h0, g0]

theorem fire_Inv (w w1 : World) (hi : Inv w) (h : fire w = Outcome.returned w1) :
    Inv w1 := by
  rcases hi with h0 | ⟨e, he, hid, hmac⟩
  · rw [fire_of_nil w h0] at h
    cases h
    exact Or.inl h0
  · rw [fire_of_single w e he] at h
    obtain ⟨d, _, h1, h2, h3, h4⟩ := SendPacket_returned _ _ h
    refine Or.inr ⟨⟨w.sim.nextUid, e.ts + (d + w.app.m_interval)⟩, ?_, h2, ?_⟩
    · rw [h1]
      simp
    · rw [h3]
      exact hmac

theorem step_Inv (w w1 : World) (a : Action) (hi : Inv w)
    (h : step w a = Outcome.returned w1) : Inv w1 := by
  cases a with
  | Start =>
    obtain ⟨h1, h2, h3, _⟩ := StartApplication_of_Inv w w1 hi h
    exact Or.inr ⟨_, by rw [h1], h2, h3⟩
  | Stop =>
    simp only [step, Outcome.returned.injEq] at h
    subst h
    exact Or.inl (Cancel_of_Inv w hi).1
  | Fire => exact fire_Inv w w1 hi h
  | SetInterval t =>
    obtain ⟨w2, h0, h1, h2, h3, _⟩ := step_config w (Action.SetInterval t) rfl
    rw [h0] at h
    cases h
    unfold Inv
    rw [h1, h2, h3]
    exact hi
  | SetInitialDelay t =>
    obtain ⟨w2, h0, h1, h2, h3, _⟩ := step_config w (Action.SetInitialDelay t) rfl
    rw [h0] at h
    cases h
    unfold Inv
    rw [h1, h2, h3]
    exact hi
  | SetPacketSize n =>
    obtain ⟨w2, h0, h1, h2, h3, _⟩ := step_config w (Action.SetPacketSize n) rfl
    rw [h0] at h
    cases h
    unfold Inv
    rw [h1, h2, h3]
    exact hi
  | SetPacketSizeRandomVariable rv =>
    obtain ⟨w2, h0, h1, h2, h3, _⟩ :=
      step_config w (Action.SetPacketSizeRandomVariable rv) rfl
    rw [h0] at h
    cases h
    unfold Inv
    rw [h1, h2, h3]
    exact hi
  | WriteStore i c =>
    obtain ⟨w2, h0, h1, h2, h3, _⟩ := step_config w (Action.WriteStore i c) rfl
    rw [h0] at h
    cases h
    unfold Inv
    rw [h1, h2, h3]
    exact hi

theorem exec_cons_returned (w w2 : World) (a : Action) (as : List Action)
    (h : exec w (a :: as) = Outcome.returned w2) :
    ∃ w1, step w a = Outcome.returned w1 ∧ exec w1 as = Outcome.returned w2 := by
  unfold exec at h
  cases hs : step w a with
  | returned w1 => rw [hs] at h; exact ⟨w1, rfl, h⟩
  | aborted why w1 => rw [hs] at h; cases h
  | undefined w1 => rw [hs] at h; cases h

theorem exec_Inv : ∀ (acts : List Action) (w w1 : World), Inv w →
    exec w acts = Outcome.returned w1 → Inv w1
  | [], w, w1, hi, h => by
    simp only [exec, Outcome.returned.injEq] at h
    subst h
    exact hi
  | a :: as, w, w1, hi, h => by
    obtain ⟨w2, h1, h2⟩ := exec_cons_returned w w1 a as h
    exact exec_Inv as w2 w1 (step_Inv w w2 a hi h1) h2

theorem Reachable_Inv (w : World) (h : Reachable w) : Inv w := by
  obtain ⟨node, now, nextUid, store, acts, h⟩ := h
  exact exec_Inv acts _ w (Or.inl rfl) h

theorem step_UidsFrom (k : Nat) (w w1 : World) (a : Action) (hu : UidsFrom k w)
    (h : step w a = Outcome.returned w1) : UidsFrom k w1 := by
  obtain ⟨hk, he⟩ := hu
  have hcfg : ∀ b : Action, b.isConfig = true → step w b = Outcome.returned w1 →
      UidsFrom k w1 := by
    intro b hb hstep
    obtain ⟨w2, h0, h1, _⟩ := step_config w b hb
    rw [h0] at hstep
    cases hstep
    unfold UidsFrom
    rw [h1]
    exact ⟨hk, he⟩
  cases a with
  | Start =>
    obtain ⟨m, _, rfl⟩ := StartApplication_returned w w1 h
    obtain ⟨c1, _, c3⟩ := Cancel_nextUid w.sim w.app.m_sendEvent
    refine ⟨?_, ?_⟩
    · simp only [Simulator.Schedule, c1]
      omega
    · intro e hmem
      simp only [Simulator.Schedule, List.mem_append, List.mem_singleton] at hmem
      rcases hmem with hmem | rfl
      · exact he e (c3 e hmem)
      · simp only [c1]
        exact hk
  | Stop =>
    simp only [step, Outcome.returned.injEq] at h
    subst h
    obtain ⟨c1, _, c3⟩ := Cancel_nextUid w.sim w.app.m_sendEvent
    exact ⟨by simp only [StopApplication, c1]; exact hk,
      fun e hmem => he e (c3 e hmem)⟩
  | Fire =>
    simp only [step] at h
    unfold fire at h
    cases hq : earliest w.sim.events with
    | none =>
      rw [hq] at h
      cases h
      exact ⟨hk, he⟩
    | some f =>
      rw [hq] at h
      obtain ⟨d, _, h1, _⟩ := SendPacket_returned _ _ h
      unfold UidsFrom
      rw [h1]
      refine ⟨by simp only; omega, ?_⟩
      intro e hmem
      simp only [List.mem_append, List.mem_singleton] at hmem
      rcases hmem with hmem | rfl
      · exact he e (List.mem_filter.mp hmem).1
      · exact hk
  | SetInterval t => exact hcfg (Action.SetInterval t) rfl h
  | SetInitialDelay t => exact hcfg (Action.SetInitialDelay t) rfl h
  | SetPacketSize n => exact hcfg (Action.SetPacketSize n) rfl h
  | SetPacketSizeRandomVariable rv => exact hcfg (Action.SetPacketSizeRandomVariable rv) rfl h
  | WriteStore i c => exact hcfg (Action.WriteStore i c) rfl h

theorem exec_UidsFrom (k : Nat) : ∀ (acts : List Action) (w w1 : World), UidsFrom k w →
    exec w acts = Outcome.returned w1 → UidsFrom k w1
  | [], w, w1, hi, h => by
    simp only [exec, Outcome.returned.injEq] at h
    subst h
    exact hi
  | a :: as, w, w1, hi, h => by
    obtain ⟨w2, h1, h2⟩ := exec_cons_returned w w1 a as h
    exact exec_UidsFrom k as w2 w1 (step_UidsFrom k w w2 a hi h1) h2

/-- From a world without a pending event, actions other than `Start` all return, send
nothing and leave no event pending. -/
theorem exec_stopped : ∀ (acts : List Action) (w : World), w.sim.events = [] →
    Action.Start ∉ acts →
    ∃ w1, exec w acts = Outcome.returned w1 ∧ w1.sent = w.sent ∧ w1.sim.events = [] ∧
      w1.initOffsetCalls = w.initOffsetCalls
  | [], w, h, _ => ⟨w, rfl, rfl, h, rfl⟩
  | a :: as, w, h, hs => by
    have hstep : ∃ w1, step w a = Outcome.returned w1 ∧ w1.sent = w.sent ∧
        w1.sim.events = [] ∧ w1.initOffsetCalls = w.initOffsetCalls := by
      have hcfg : a.isConfig = true → ∃ w1, step w a = Outcome.returned w1 ∧
          w1.sent = w.sent ∧ w1.sim.events = [] ∧
          w1.initOffsetCalls = w.initOffsetCalls := by
        intro ha
        obtain ⟨w1, h0, h1, _, _, _, h5, h6⟩ := step_config w a ha
        exact ⟨w1, h0, h5, by rw [h1]; exact h, h6⟩
      cases a with
      | Start => simp at hs
      | Stop => exact ⟨w, by simp [step, StopApplication_of_nil w h], rfl, h, rfl⟩
      | Fire => exact ⟨w, by simp [step, fire_of_nil w h], rfl, h, rfl⟩
      | SetInterval t => exact hcfg rfl
      | SetInitialDelay t => exact hcfg rfl
      | SetPacketSize n => exact hcfg rfl
      | SetPacketSizeRandomVariable rv => exact hcfg rfl
      | WriteStore i c => exact hcfg rfl
    obtain ⟨w1, h0, h1, h2, h3⟩ := hstep
    obtain ⟨w2, g0, g1, g2, g3⟩ :=
      exec_stopped as w1 h2 (fun hm => hs (List.mem_cons_of_mem _ hm))
    exact ⟨w2, by simp [exec, h0, g0], g1.trans h1, g2, g3.trans h3⟩

/-- The world after `Start ()` on a newly constructed scheduler of node 7 at time 0, the
offset file of the node holding `0`. -/
def startedWorld : World :=
  { app := { CustomPeriodicSender.new with m_mac := some 0, m_sendEvent := some 0 },
    node := ⟨7, some 0⟩,
    sim := ⟨0, 1, [⟨0, 0 + 1⟩]⟩,
    store := fun i => if i = 7 then some "0" else none,
    sent := [],
    initOffsetCalls := 0 }

theorem startedWorld_reachable : Reachable startedWorld :=
  ⟨⟨7, some 0⟩, 0, 0, fun i => if i = 7 then some "0" else none, [Action.Start], rfl⟩

/-- C3: after `Stop ()` in any reachable world, no event is pending; every sequence of
actions without `Start ()` (clock firings, further `Stop ()`, setters, writes to the
store) returns with nothing sent and nothing pending; the clock run up to any time
returns at once in the stopped world, whatever the time stamp of the cancelled event; and
`Stop ()` with no pending event changes nothing. -/
theorem C3_no_send_after_stop (w : World) (h : Reachable w) :
    (StopApplication w).sim.events = [] ∧
    (StopApplication w).sent = w.sent ∧
    (∀ acts, Action.Start ∉ acts →
      ∃ w1, exec (StopApplication w) acts = Outcome.returned w1 ∧ w1.sent = w.sent ∧
        w1.sim.events = [] ∧ w1.initOffsetCalls = w.initOffsetCalls) ∧
    (∀ stopTime fuel,
      Run stopTime (fuel + 1) (StopApplication w)
        = some (Outcome.returned (StopApplication w))) ∧
    (w.sim.events = [] → StopApplication w = w) := by
  have hstop : (StopApplication w).sim.events = [] := (Cancel_of_Inv w (Reachable_Inv w h)).1
  refine ⟨hstop, rfl, ?_, ?_, StopApplication_of_nil w⟩
  · intro acts hacts
    exact exec_stopped acts (StopApplication w) hstop hacts
  · intro stopTime fuel
    simp [Run, hstop, earliest]

/-- C3, witness: the scheduler started at time 0 has its first event due at 1 s; stopped,
it lets the clock run to 100 s without any send. -/
theorem C3_no_send_after_stop_witness :
    Run 100 (4 + 1) (StopApplication startedWorld)
      = some (Outcome.returned (StopApplication startedWorld)) :=
  (C3_no_send_after_stop startedWorld startedWorld_reachable).2.2.2.1 100 4

/-- C4: in every reachable world at most one event is pending; and when `Start ()` is
called, then only setters and store writes happen, and `Start ()` is called again, the
second call leaves exactly one pending event, due `m_initialDelay` after the time of the
second call, and the event of the first call is pending in no world reached later, so it
never fires. -/
theorem C4_single_pending_event (w : World) (h : Reachable w) :
    w.sim.events.length ≤ 1 ∧
    ∀ w1 mid w2 w3, StartApplication w = Outcome.returned w1 →
      (∀ a ∈ mid, a.isConfig = true) → exec w1 mid = Outcome.returned w2 →
      StartApplication w2 = Outcome.returned w3 →
      w1.sim.events = [⟨w.sim.nextUid, w.sim.now + w.app.m_initialDelay⟩] ∧
      w3.sim.events = [⟨w.sim.nextUid + 1, w2.sim.now + w2.app.m_initialDelay⟩] ∧
      ∀ acts w4, exec w3 acts = Outcome.returned w4 →
        ∀ e ∈ w4.sim.events, e.uid ≠ w.sim.nextUid := by
  have hi := Reachable_Inv w h
  refine ⟨?_, ?_⟩
  · rcases hi with h0 | ⟨e, he, _⟩
    · simp [h0]
    · simp [he]
  · intro w1 mid w2 w3 hs1 hmid hexec hs2
    obtain ⟨a1, _⟩ := StartApplication_of_Inv w w1 hi hs1
    have hi1 : Inv w1 := step_Inv w w1 Action.Start hi hs1
    have hi2 : Inv w2 := exec_Inv mid w1 w2 hi1 hexec
    obtain ⟨w2', c0, c1, _⟩ := exec_config mid w1 hmid
    rw [c0] at hexec
    cases hexec
    obtain ⟨b1, _⟩ := StartApplication_of_Inv w2 w3 hi2 hs2
    have hn : w2.sim.nextUid = w.sim.nextUid + 1 := by rw [c1, a1]
    refine ⟨by rw [a1], by rw [b1, hn], ?_⟩
    intro acts w4 hexec4 e he
    have hu : UidsFrom (w.sim.nextUid + 1) w3 := by
      unfold UidsFrom
      rw [b1, hn]
      simp
    have := (exec_UidsFrom _ acts w3 w4 hu hexec4).2 e he
    omega

/-- C4, witness: `Start ()` twice in a row on a newly constructed scheduler of node 7 at
time 0: the first event (identifier 0) is replaced by the event with identifier 1, due at
0 + 1 s, and the first never comes back. -/
theorem C4_single_pending_event_witness :
    (World.create ⟨7, some 0⟩ 0 0 (fun i => if i = 7 then some "0" else none)).sim.events.length
      ≤ 1 ∧
    startedWorld.sim.events = [⟨0, 0 + 1⟩] ∧
    ∃ w3, StartApplication startedWorld = Outcome.returned w3 ∧
      w3.sim.events = [⟨0 + 1, 0 + 1⟩] ∧
      ∀ acts w4, exec w3 acts = Outcome.returned w4 → ∀ e ∈ w4.sim.events, e.uid ≠ 0 := by
  have h := C4_single_pending_event
    (World.create ⟨7, some 0⟩ 0 0 (fun i => if i = 7 then some "0" else none))
    ⟨⟨7, some 0⟩, 0, 0, fun i => if i = 7 then some "0" else none, [], rfl⟩
  obtain ⟨w3, hw3⟩ : ∃ w3, StartApplication startedWorld = Outcome.returned w3 := ⟨_, rfl⟩
  have h2 := h.2 startedWorld [] startedWorld w3 rfl (by simp) rfl hw3
  exact ⟨h.1, h2.1, w3, hw3, h2.2.1, h2.2.2⟩

/-! ## The steady cycle -/

/-- A bound scheduler with one pending event, due at `t`, whose offset store reads "0". -/
def Steady (w : World) (t : Time) : Prop :=
  (∃ uid, w.sim.events = [⟨uid, t⟩]) ∧ w.app.m_mac ≠ none ∧
    ReadOffset w.store w.node.id = "0"

theorem fire_steady (w : World) (t : Time) (h : Steady w t) :
    ∃ w1, fire w = Outcome.returned w1 ∧ Steady w1 (t + w.app.m_interval) ∧
      w1.sim.now = t ∧ w1.app.m_interval = w.app.m_interval ∧
      w1.app.m_basePktSize = w.app.m_basePktSize ∧
      (w.app.m_pktSizeRV = none → w1.app.m_pktSizeRV = none) ∧
      w1.store = w.store ∧ w1.node = w.node ∧
      w1.initOffsetCalls = w.initOffsetCalls ∧
      w1.sent = w.sent ++ [(t, nextPacketSize w.app)] := by
  obtain ⟨⟨uid, hev⟩, hmac, hread⟩ := h
  obtain ⟨mac, hm⟩ := Option.ne_none_iff_exists'.mp hmac
  rw [fire_of_single w _ hev]
  have hd : stod (ReadOffset
      ({ w with sim := { w.sim with now := t, events := [] } } : World).store
      ({ w with sim := { w.sim with now := t, events := [] } } : World).node.id)
      = StodResult.finite 0 := by
    show stod (ReadOffset w.store w.node.id) = StodResult.finite 0
    rw [hread, stod_zero]
  obtain ⟨w1, h0, h1, _, h3, h4, h5, h6, h7, h8, _, h10, h11⟩ :=
    SendPacket_finite { w with sim := { w.sim with now := t, events := [] } } mac hm 0 hd
  obtain ⟨g1, g2⟩ := afterReset_store_eq
    { w with sim := { w.sim with now := t, events := [] } } hread
  refine ⟨w1, h0, ⟨⟨w.sim.nextUid, ?_⟩, ?_, ?_⟩, ?_, h7, h10, h11, ?_, h5, ?_, h6⟩
  · rw [h1]
    simp
  · rw [h8]
    exact hmac
  · rw [h3, g1, h5]
    exact hread
  · rw [h1]
  · rw [h3, g1]
  · rw [h4, g2]

theorem exec_fires_succ (w w1 : World) (n : Nat) (h : fire w = Outcome.returned w1) :
    exec w (fires (n + 1)) = exec w1 (fires n) := by
  simp [fires, List.replicate_succ, exec, step, h]

theorem steady_fires : ∀ (n : Nat) (w : World) (t : Time), Steady w t →
    ∃ wn, exec w (fires n) = Outcome.returned wn ∧
      Steady wn (t + n * w.app.m_interval) ∧
      wn.app.m_interval = w.app.m_interval ∧
      wn.store = w.store ∧ wn.initOffsetCalls = w.initOffsetCalls ∧
      wn.sent.map Prod.fst
        = w.sent.map Prod.fst ++ (List.range n).map (fun i : Nat => t + (i : Time) * w.app.m_interval) ∧
      (w.app.m_pktSizeRV = none →
        wn.sent = w.sent ++ (List.range n).map
          (fun i : Nat => (t + (i : Time) * w.app.m_interval, w.app.m_basePktSize)))
  | 0, w, t, h => by
    refine ⟨w, rfl, ?_, rfl, rfl, rfl, by simp, fun _ => by simp⟩
    simpa using h
  | n + 1, w, t, h => by
    obtain ⟨w1, h0, h1, _, h3, h4, h5, h6, _, h8, h9⟩ := fire_steady w t h
    obtain ⟨wn, g0, g1, g2, g3, g4, g5, g6⟩ := steady_fires n w1 (t + w.app.m_interval) h1
    have hfun : ∀ i : Nat, t + w.app.m_interval + (i : Time) * w.app.m_interval
        = t + ((i + 1 : Nat) : Time) * w.app.m_interval := by
      intro i
      push_cast
      ring
    refine ⟨wn, ?_, ?_, g2.trans h3, g3.trans h6, g4.trans h8, ?_, ?_⟩
    · rw [exec_fires_succ w w1 n h0, g0]
    · rw [h3] at g1
      rw [← hfun n]
      exact g1
    · rw [g5, h9, h3, List.range_succ_eq_map]
      simp [List.map_map, Function.comp_def, hfun]
    · intro hrv
      rw [g6 (h5 hrv), h9, h3, h4, List.range_succ_eq_map]
      simp [List.map_map, Function.comp_def, hfun, nextPacketSize, hrv, packetSize]

theorem steady_Run (stopTime : Time) : ∀ (n : Nat) (w : World) (t : Time), Steady w t →
    (∀ i : Nat, i < n → t + i * w.app.m_interval < stopTime) →
    stopTime ≤ t + n * w.app.m_interval →
    Run stopTime (n + 1) w = some (exec w (fires n))
  | 0, w, t, h, _, hle => by
    obtain ⟨⟨uid, hev⟩, _⟩ := h
    have : ¬ t < stopTime := by
      simp at hle
      exact not_lt.mpr hle
    simp [Run, hev, earliest_single, this, fires, exec]
  | n + 1, w, t, h, hlt, hle => by
    obtain ⟨w1, h0, h1, _, h3, _⟩ := fire_steady w t h
    obtain ⟨⟨uid, hev⟩, _⟩ := h
    have ht : t < stopTime := by simpa using hlt 0 (Nat.succ_pos n)
    have hfun : ∀ i : Nat, t + w.app.m_interval + (i : Time) * w.app.m_interval
        = t + ((i + 1 : Nat) : Time) * w.app.m_interval := by
      intro i
      push_cast
      ring
    have ih := steady_Run stopTime n w1 (t + w.app.m_interval) h1
      (by
        intro i hi
        rw [h3, hfun i]
        exact hlt (i + 1) (Nat.succ_lt_succ hi))
      (by
        rw [h3, hfun n]
        exact hle)
    rw [exec_fires_succ w w1 n h0, ← ih]
    conv_lhs => unfold Run
    simp [hev, earliest_single, ht, h0]

/-- C2: for an interval that is not negative and any initial delay, without a stream and
with the offset store reading "0": after `Start ()` at time `t0` in a reachable world,
for every `n` the clock can fire `n` events, all calls return, the packets sent are
exactly the ones at `t0 + initialDelay + i * interval` for `i < n`, each of size
`m_basePktSize`, the store is untouched, and the one pending event is the send number `n`
at `t0 + initialDelay + n * interval`; and the clock run to a stop time that lies after
send `n - 1` and not after send `n` returns with exactly these `n` sends. -/
theorem C2_periodic_sends (w : World) (interval initialDelay : Time) (m : Nat)
    (h : Reachable w) (hint : 0 ≤ interval)
    (hI : w.app.m_interval = interval) (hD : w.app.m_initialDelay = initialDelay)
    (hrv : w.app.m_pktSizeRV = none) (hmac : resolveMac w = some m)
    (hstore : ReadOffset w.store w.node.id = "0") :
    ∃ w1, StartApplication w = Outcome.returned w1 ∧ w1.sent = w.sent ∧
      ∀ n : Nat, ∃ wn, exec w1 (fires n) = Outcome.returned wn ∧
        wn.sent = w.sent ++ (List.range n).map (fun i : Nat =>
          (w.sim.now + initialDelay + (i : Time) * interval, w.app.m_basePktSize)) ∧
        (∃ uid, wn.sim.events
          = [⟨uid, w.sim.now + initialDelay + (n : Time) * interval⟩]) ∧
        wn.store = w.store ∧
        ∀ stopTime : Time,
          (∀ k : Nat, n = k + 1 →
            w.sim.now + initialDelay + (k : Time) * interval < stopTime) →
          stopTime ≤ w.sim.now + initialDelay + (n : Time) * interval →
          Run stopTime (n + 1) w1 = some (Outcome.returned wn) := by
  have hi := Reachable_Inv w h
  obtain ⟨w1, hs⟩ : ∃ w1, StartApplication w = Outcome.returned w1 := by
    unfold StartApplication
    rw [hmac]
    exact ⟨_, rfl⟩
  obtain ⟨a1, _, a3, a4, a5, a6, a7, a8, a9, _⟩ := StartApplication_of_Inv w w1 hi hs
  have hsteady : Steady w1 (w.sim.now + initialDelay) := by
    refine ⟨⟨w.sim.nextUid, ?_⟩, a3, ?_⟩
    · rw [a1, hD]
    · rw [a7, a8]
      exact hstore
  refine ⟨w1, hs, a9, fun n => ?_⟩
  obtain ⟨wn, g0, g1, _, g3, _, _, g6⟩ := steady_fires n w1 _ hsteady
  rw [a4, hI] at g1
  have g6 := g6 (a6.trans hrv)
  rw [a4, hI, a5, a9] at g6
  refine ⟨wn, g0, g6, g1.1, g3.trans a7, ?_⟩
  intro stopTime hlast hnext
  rw [← g0]
  apply steady_Run stopTime n w1 _ hsteady
  · intro i hin
    rw [a4, hI]
    obtain ⟨k, rfl⟩ : ∃ k, n = k + 1 := ⟨n - 1, by omega⟩
    have hik : (i : Time) ≤ (k : Time) := by
      exact_mod_cast Nat.lt_succ_iff.mp hin
    have := mul_le_mul_of_nonneg_right hik hint
    have := hlast k rfl
    linarith
  · rw [a4, hI]
    exact hnext

/-- C2, witness: base size 10, interval 10 s, initial delay 1 s, started at time 0: three
clock firings send packets of 10 bytes at 1 s, 11 s and 21 s, and the clock run to 25 s
returns with exactly these. -/
theorem C2_periodic_sends_witness :
    ∃ w1, StartApplication
        (World.create ⟨7, some 0⟩ 0 0 (fun i => if i = 7 then some "0" else none))
          = Outcome.returned w1 ∧
      ∃ w3, exec w1 (fires 3) = Outcome.returned w3 ∧
        w3.sent = [(1, 10), (11, 10), (21, 10)] ∧
        Run 25 (3 + 1) w1 = some (Outcome.returned w3) := by
  obtain ⟨w1, hs, _, hn⟩ := C2_periodic_sends
    (World.create ⟨7, some 0⟩ 0 0 (fun i => if i = 7 then some "0" else none)) 10 1 0
    ⟨⟨7, some 0⟩, 0, 0, fun i => if i = 7 then some "0" else none, [], rfl⟩
    (by norm_num) rfl rfl rfl rfl (by decide)
  obtain ⟨w3, h0, h1, _, _, h4⟩ := hn 3
  refine ⟨w1, hs, w3, h0, ?_, h4 25 ?_ ?_⟩
  · rw [h1]
    simp [World.create, CustomPeriodicSender.new, List.range_succ]
    norm_num
  · intro k hk
    obtain rfl : k = 2 := by omega
    simp [World.create]
    norm_num
  · simp [World.create]
    norm_num

end Lorawan
